import Mathlib

/-!
Verification of the ZFS Prometheus exporter core (src/main.rs): the
tab-delimited `zpool iostat` row parser, the positional pool/vdev/disk
topology reconstruction loop of `metrics_endpoint`, the substring-based
disk correlation against the libzetta topology object, and the label /
counter construction of the metric registries.

Strings are modelled by Lean's `String`; the Rust standard-library string
operations used by the source (`str::split`, `str::contains`,
`str::parse::<u64>`) are modelled explicitly below.  Rust panics
(`unwrap` / `expect` on fallible operations) are modelled as the `.error`
case of `Except String`.
-/

namespace ZfsExporter

/-! ## Models of the Rust standard-library string operations -/

/-- Model of `str::starts_with` on character lists: the second list is a
prefix of the first. -/
def listStartsWith : List Char → List Char → Bool
  | _, [] => true
  | [], _ :: _ => false
  | a :: s, b :: p => a == b && listStartsWith s p

/-- Model of `str::contains` on character lists: some suffix of the first
list starts with the second list. -/
def hasSubstr : List Char → List Char → Bool
  | [], p => p.isEmpty
  | a :: s, p => listStartsWith (a :: s) p || hasSubstr s p

/-- Model of Rust `String::contains`: `pat` occurs as a contiguous
substring of `s`. -/
def strContains (s pat : String) : Bool :=
  hasSubstr s.data pat.data

/-- Model of Rust `str::split` with a one-character separator, on character
lists.  Splitting the empty list yields one empty piece, exactly as in
Rust (`"".split(c)` yields `[""]`). -/
def splitOnChar (c : Char) : List Char → List (List Char)
  | [] => [[]]
  | a :: rest =>
    if a == c then [] :: splitOnChar c rest
    else
      match splitOnChar c rest with
      | [] => [[a]]
      | w :: ws => (a :: w) :: ws

/-- Model of Rust `str::split` with a one-character separator, on `String`. -/
def rustSplit (c : Char) (s : String) : List String :=
  (splitOnChar c s.data).map String.mk

/-- Joins character lists with a separator character; the inverse of
`splitOnChar` on separator-free pieces. -/
def joinChar (c : Char) : List (List Char) → List Char
  | [] => []
  | [l] => l
  | l :: ls => l ++ c :: joinChar c ls

/-- Joins a list of lines with the newline character. -/
def joinNL (ls : List String) : String :=
  String.mk (joinChar '\n' (ls.map String.data))

/-- Model of Rust `str::parse::<u64>()`: an optional leading plus sign
followed by at least one ASCII digit, with the value bounded by the u64
range; every other input (empty, non-digit characters, overflow) is a
parse error, modelled as `none`. -/
def parseU64 (s : String) : Option Nat :=
  let cs := match s.data with
    | '+' :: rest => rest
    | l => l
  if cs.isEmpty then none
  else if cs.all Char.isDigit then
    let v := cs.foldl (fun acc c => acc * 10 + (c.toNat - 48)) 0
    if v < 2 ^ 64 then some v else none
  else none

/-! ## Data model from the source (`IoStats`, `Device`) -/

/-- `struct IoStats` of src/main.rs: one parsed iostat row. -/
structure IoStats where
  capacity : Option Nat
  available : Option Nat
  read_op : Nat
  write_op : Nat
  read_band : Nat
  write_band : Nat
deriving DecidableEq

/-- `struct Device` of src/main.rs: a named row of `zpool iostat`. -/
structure Device where
  name : String
  io_stats : IoStats
deriving DecidableEq

/-- `Device::is_pool_or_vdev` of src/main.rs: a row is pool/vdev-level
exactly when both `available` and `capacity` were parsed as present. -/
def Device.is_pool_or_vdev (d : Device) : Bool :=
  d.io_stats.available.isSome && d.io_stats.capacity.isSome

/-- The retain predicate of `Device::parse_from_stdout`: a split row is
kept exactly when it has exactly 7 fields, none of them empty. -/
def wellFormed (row : List String) : Bool :=
  row.length == 7 && row.all (fun s => !s.isEmpty)

/-- The per-row body of the parse loop of `Device::parse_from_stdout`:
fields 1–6 are parsed as u64 (a failure is the `unwrap` panic, modelled
as `.error`), and a zero `alloc` turns both `capacity` and `available`
absent. -/
def parseRow (row : List String) : Except String Device :=
  match row with
  | [name, f1, f2, f3, f4, f5, f6] =>
    match parseU64 f1, parseU64 f2, parseU64 f3, parseU64 f4, parseU64 f5, parseU64 f6 with
    | some alloc, some free, some read_op, some write_op, some read_band, some write_band =>
      let af : Option Nat × Option Nat :=
        if alloc == 0 then (none, none) else (some alloc, some free)
      Except.ok (Device.mk name (IoStats.mk af.1 af.2 read_op write_op read_band write_band))
    | _, _, _, _, _, _ => Except.error "panic: invalid digit"
  | _ => Except.error "panic: malformed row"

/-- The parse loop of `Device::parse_from_stdout` over the retained rows,
propagating the first panic. -/
def parseRows : List (List String) → Except String (List Device)
  | [] => Except.ok []
  | r :: rs =>
    match parseRow r with
    | Except.error e => Except.error e
    | Except.ok d =>
      match parseRows rs with
      | Except.error e => Except.error e
      | Except.ok ds => Except.ok (d :: ds)

/-- `Device::parse_from_stdout` of src/main.rs.  The source's
trailing-newline trim takes the slice `[..input.len()]`, a no-op, so the
input is used as is; the split rows are filtered by the retain predicate
before any numeric parsing happens. -/
def Device.parse_from_stdout (stdout : String) : Except String (List Device) :=
  let input := stdout
  let stats := ((rustSplit '\n' input).map (rustSplit '\t')).filter wellFormed
  parseRows stats

/-! ## Topology model (the libzetta collaborator types used by the source) -/

/-- `libzetta::zpool::Health`: the seven-variant health enum. -/
inductive Health where
  | online
  | degraded
  | faulted
  | offline
  | available
  | unavailable
  | removed
deriving DecidableEq

/-- `libzetta::zpool::vdev::ErrorStatistics`. -/
structure ErrorStatistics where
  read : Nat
  write : Nat
  checksum : Nat
deriving DecidableEq

/-- A topology disk: the fields of a libzetta disk the source reads
(`path()` flattened to its string form, `health()`, `error_statistics()`). -/
structure Disk where
  path : String
  health : Health
  error_statistics : ErrorStatistics
deriving DecidableEq

/-- A topology vdev: the fields of `libzetta::zpool::Vdev` the source
reads (`disks()`, `error_statistics()`). -/
structure Vdev where
  disks : List Disk
  error_statistics : ErrorStatistics
deriving DecidableEq

/-! ## Label and registry model (the prometheus collaborator) -/

/-- A label map (`HashMap<String, String>` in the source), modelled as an
association list whose key set is duplicate-free by construction. -/
abbrev Labels := List (String × String)

/-- `HashMap::remove`: drops every binding of the key. -/
def removeL (k : String) : Labels → Labels
  | [] => []
  | p :: rest => if p.1 == k then removeL k rest else p :: removeL k rest

/-- `HashMap::insert`: replaces any previous binding of the key. -/
def insertL (k v : String) (m : Labels) : Labels :=
  (k, v) :: removeL k m

/-- `HashMap::get`, as used through the registry's constant labels. -/
def lookupL (k : String) : Labels → Option String
  | [] => none
  | p :: rest => if p.1 == k then some p.2 else lookupL k rest

/-- A prometheus registry as the source builds them: its constant label
set and its registered `IntCounter`s in registration order. -/
structure Reg where
  labels : Labels
  counters : List (String × Nat)
deriving DecidableEq

/-! ## Metric builders from the source -/

/-- `register_error_stats` of src/main.rs, as the counter list it appends. -/
def errorCounters (e : ErrorStatistics) : List (String × Nat) :=
  [("read_errors", e.read), ("write_errors", e.write), ("checksum_errors", e.checksum)]

/-- `IoStats::collect_metrics` of src/main.rs, as the counter list it
appends: capacity and available only when both are present, then the four
I/O counters unconditionally. -/
def IoStats.collect_metrics (s : IoStats) : List (String × Nat) :=
  (match s.capacity, s.available with
   | some capacity, some available => [("capacity", capacity), ("available", available)]
   | _, _ => []) ++
  [("read_operations", s.read_op), ("write_operations", s.write_op),
   ("read_bandwidth", s.read_band), ("write_bandwidth", s.write_band)]

/-- `register_health` of src/main.rs: seven registries sharing the
`field_type=enum` label, one per health state, each holding a single
`health` counter whose value is decided by matching the health argument
against that registry's variant.  The source mutates one label map in
place, so each registry's labels are the accumulated inserts up to its
point of creation. -/
def register_health (labels : Labels) (h : Health) : List Reg :=
  let labels := insertL "field_type" "enum" labels
  let l_online := insertL "state" "online" labels
  let r_online : Reg := ⟨l_online, [("health", match h with | Health.online => 1 | _ => 0)]⟩
  let l_degraded := insertL "state" "degraded" l_online
  let r_degraded : Reg := ⟨l_degraded, [("health", match h with | Health.degraded => 1 | _ => 0)]⟩
  let l_faulted := insertL "state" "faulted" l_degraded
  let r_faulted : Reg := ⟨l_faulted, [("health", match h with | Health.faulted => 1 | _ => 0)]⟩
  let l_offline := insertL "state" "offline" l_faulted
  let r_offline : Reg := ⟨l_offline, [("health", match h with | Health.offline => 1 | _ => 0)]⟩
  let l_available := insertL "state" "available" l_offline
  let r_available : Reg := ⟨l_available, [("health", match h with | Health.available => 1 | _ => 0)]⟩
  let l_unavailable := insertL "state" "unavailable" l_available
  let r_unavailable : Reg := ⟨l_unavailable, [("health", match h with | Health.unavailable => 1 | _ => 0)]⟩
  let l_removed := insertL "state" "removed" l_unavailable
  let r_removed : Reg := ⟨l_removed, [("health", match h with | Health.removed => 1 | _ => 0)]⟩
  [r_online, r_degraded, r_faulted, r_offline, r_available, r_unavailable, r_removed]

/-- `register_vdev_stats` of src/main.rs: starting from a clone of the
pool-level labels, overwrite `device_type`, remove `vdev`, set
`device_name` to the given vdev name, then collect the given device's io
stats, the topology vdev's error statistics, and its disk count. -/
def register_vdev_stats (vdev : Vdev) (vdev_device : Device) (vdev_name : String)
    (start_labels : Labels) : Reg :=
  let labels := insertL "device_name" vdev_name
    (removeL "vdev" (insertL "device_type" "vdev" start_labels))
  ⟨labels,
   vdev_device.io_stats.collect_metrics ++ errorCounters vdev.error_statistics ++
     [("disk_count", vdev.disks.length)]⟩

/-! ## The reconstruction loop of `metrics_endpoint` -/

/-- The mutable state of the device loop of `metrics_endpoint`:
`last_vdev`, `last_vdev_data`, and the shared registry vector. -/
structure LoopState where
  last_vdev : Option Device
  last_vdev_data : Option Vdev
  registries : List Reg
deriving DecidableEq

/-- The disk-correlation search of `metrics_endpoint` (the inner
`for pool_vdev in pool.vdevs()` loop): scan the topology vdevs in order,
inside each one find the first disk whose path contains the device name,
and stop at the first hit. -/
def matchDisk (pool_vdevs : List Vdev) (name : String) : Option (Vdev × Disk) :=
  match pool_vdevs with
  | [] => none
  | v :: rest =>
    match v.disks.find? (fun d => strContains d.path name) with
    | some d => some (v, d)
    | none => matchDisk rest name

/-- One iteration of the `for device in devices.iter()` loop of
`metrics_endpoint`: skip the pool row; on a pool/vdev row, register the
stats held for the previous vdev (only when `last_vdev_data` is set, and
passing the current `device` as the stats/name source, exactly as the
source does) and open the new vdev; on a disk row, build the disk labels
(with a `vdev` label only when a vdev is open), correlate against the
topology, and push the health and device registries. -/
def processDevice (pn : String) (pool_vdevs : List Vdev) (pl : Labels)
    (st : LoopState) (device : Device) : LoopState :=
  if device.name == pn then
    st
  else if device.is_pool_or_vdev then
    { last_vdev := some device, last_vdev_data := none,
      registries := st.registries ++
        (match st.last_vdev_data with
         | some vdev => [register_vdev_stats vdev device device.name pl]
         | none => []) }
  else
    let labels := insertL "device_type" "disk" (insertL "device_name" device.name pl)
    let labels :=
      match st.last_vdev with
      | some vdev => insertL "vdev" vdev.name labels
      | none => labels
    match matchDisk pool_vdevs device.name with
    | some (pool_vdev, pool_disk) =>
      { last_vdev := st.last_vdev, last_vdev_data := some pool_vdev,
        registries := st.registries ++ register_health labels pool_disk.health ++
          [⟨labels, device.io_stats.collect_metrics ++ errorCounters pool_disk.error_statistics⟩] }
    | none =>
      { last_vdev := st.last_vdev, last_vdev_data := st.last_vdev_data,
        registries := st.registries ++ [⟨labels, device.io_stats.collect_metrics⟩] }

/-- The whole device loop of `metrics_endpoint` plus its trailing
`if let (Some(device), Some(vdev)) = (last_vdev, last_vdev_data)` push. -/
def reconstruct (pn : String) (pool_vdevs : List Vdev) (pl : Labels)
    (devices : List Device) : List Reg :=
  let st := devices.foldl (processDevice pn pool_vdevs pl) ⟨none, none, []⟩
  match st.last_vdev, st.last_vdev_data with
  | some device, some vdev => st.registries ++ [register_vdev_stats vdev device device.name pl]
  | _, _ => st.registries

/-- The pool-level label map built at the top of the per-pool loop of
`metrics_endpoint`. -/
def pool_labels (pn : String) : Labels :=
  insertL "device_name" pn (insertL "pool" pn (insertL "device_type" "pool" []))

/-- The per-pool inputs of `metrics_endpoint`: the libzetta pool fields
the source reads and the decoded stdout of the two external commands. -/
structure PoolInput where
  name : String
  vdevs : List Vdev
  spares_count : Nat
  health : Health
  error_statistics : ErrorStatistics
  iostat_stdout : String
  list_stdout : String
deriving DecidableEq

/-- One iteration of the `for pool in all_pools.iter()` loop of
`metrics_endpoint`: the pool health registries, the pool registry
(vdev/spare/disk counts, error statistics, and — when the pool's own row
is found — its io stats and the raw size extracted from `zpool list`),
followed by the reconstruction loop registries.  Every `unwrap` panic is
an `.error`. -/
def processPool (p : PoolInput) : Except String (List Reg) :=
  let labels := pool_labels p.name
  let base_counters : List (String × Nat) :=
    [("vdev_count", p.vdevs.length), ("spare_count", p.spares_count),
     ("disk_count", (p.vdevs.map (fun v => v.disks.length)).sum)] ++
    errorCounters p.error_statistics
  match Device.parse_from_stdout p.iostat_stdout with
  | Except.error e => Except.error e
  | Except.ok devices =>
    let found : Except String (List (String × Nat)) :=
      match devices.find? (fun dev => dev.name == p.name) with
      | none => Except.ok []
      | some pool_dev =>
        let cols := rustSplit '\t' p.list_stdout
        if cols.length == 11 then
          match parseU64 (cols.getD 1 "") with
          | some size => Except.ok (pool_dev.io_stats.collect_metrics ++ [("raw_size", size)])
          | none => Except.error "panic: invalid digit"
        else
          Except.ok pool_dev.io_stats.collect_metrics
    match found with
    | Except.error e => Except.error e
    | Except.ok extra =>
      Except.ok (register_health labels p.health ++ [⟨labels, base_counters ++ extra⟩] ++
        reconstruct p.name p.vdevs labels devices)

/-- The full per-scrape loop of `metrics_endpoint` over all pools: a
panic in any pool's processing aborts the whole scrape, producing no
response at all. -/
def run_pools : List PoolInput → Except String (List Reg)
  | [] => Except.ok []
  | p :: rest =>
    match processPool p with
    | Except.error e => Except.error e
    | Except.ok regs =>
      match run_pools rest with
      | Except.error e => Except.error e
      | Except.ok rest_regs => Except.ok (regs ++ rest_regs)

/-- The `state` label value the source pairs with each health variant in
`register_health`. -/
def stateName : Health → String
  | Health.online => "online"
  | Health.degraded => "degraded"
  | Health.faulted => "faulted"
  | Health.offline => "offline"
  | Health.available => "available"
  | Health.unavailable => "unavailable"
  | Health.removed => "removed"

/-- The most recent vdev header (a non-pool row with capacity present) in
a device sequence, starting from a given open vdev. -/
def lastVdevHeader (pn : String) (start : Option Device) (devs : List Device) : Option Device :=
  devs.foldl (fun acc d => if !(d.name == pn) && d.is_pool_or_vdev then some d else acc) start

/-! ## Label map lemmas -/

theorem lookupL_insertL_self (k v : String) (m : Labels) :
    lookupL k (insertL k v m) = some v := by
  simp [insertL, lookupL]

theorem lookupL_removeL_ne (k k2 : String) (m : Labels) (h : k ≠ k2) :
    lookupL k (removeL k2 m) = lookupL k m := by
  have h2 : k2 ≠ k := fun e => h e.symm
  induction m with
  | nil => rfl
  | cons p rest ih =>
    by_cases hp : p.1 = k2
    · simp [removeL, lookupL, hp, h2, ih]
    · simp [removeL, lookupL, hp, ih]

theorem lookupL_insertL_ne (k k2 v : String) (m : Labels) (h : k ≠ k2) :
    lookupL k (insertL k2 v m) = lookupL k m := by
  have hb : (k2 == k) = false := by
    simp only [beq_eq_false_iff_ne, ne_eq]
    exact fun e => h e.symm
  simp only [insertL, lookupL, hb, if_false]
  exact lookupL_removeL_ne k k2 m h

theorem lookupL_removeL_self (k : String) (m : Labels) :
    lookupL k (removeL k m) = none := by
  induction m with
  | nil => rfl
  | cons p rest ih =>
    by_cases hp : p.1 = k
    · simp [removeL, hp, ih]
    · simp [removeL, lookupL, hp, ih]

@[simp] theorem lk_state_insert_state (v : String) (m : Labels) :
    lookupL "state" (insertL "state" v m) = some v := lookupL_insertL_self _ _ _

@[simp] theorem lk_ft_insert_state (v : String) (m : Labels) :
    lookupL "field_type" (insertL "state" v m) = lookupL "field_type" m :=
  lookupL_insertL_ne _ _ _ _ (by decide)

@[simp] theorem lk_ft_insert_ft (v : String) (m : Labels) :
    lookupL "field_type" (insertL "field_type" v m) = some v := lookupL_insertL_self _ _ _

@[simp] theorem lk_vdev_insert_state (v : String) (m : Labels) :
    lookupL "vdev" (insertL "state" v m) = lookupL "vdev" m :=
  lookupL_insertL_ne _ _ _ _ (by decide)

@[simp] theorem lk_vdev_insert_ft (v : String) (m : Labels) :
    lookupL "vdev" (insertL "field_type" v m) = lookupL "vdev" m :=
  lookupL_insertL_ne _ _ _ _ (by decide)

@[simp] theorem lk_vdev_insert_dt (v : String) (m : Labels) :
    lookupL "vdev" (insertL "device_type" v m) = lookupL "vdev" m :=
  lookupL_insertL_ne _ _ _ _ (by decide)

@[simp] theorem lk_vdev_insert_dn (v : String) (m : Labels) :
    lookupL "vdev" (insertL "device_name" v m) = lookupL "vdev" m :=
  lookupL_insertL_ne _ _ _ _ (by decide)

@[simp] theorem lk_vdev_insert_vdev (v : String) (m : Labels) :
    lookupL "vdev" (insertL "vdev" v m) = some v := lookupL_insertL_self _ _ _

@[simp] theorem lk_vdev_remove_vdev (m : Labels) :
    lookupL "vdev" (removeL "vdev" m) = none := lookupL_removeL_self _ _

@[simp] theorem lk_vdev_insert_pool (v : String) (m : Labels) :
    lookupL "vdev" (insertL "pool" v m) = lookupL "vdev" m :=
  lookupL_insertL_ne _ _ _ _ (by decide)

@[simp] theorem lk_pool_insert_state (v : String) (m : Labels) :
    lookupL "pool" (insertL "state" v m) = lookupL "pool" m :=
  lookupL_insertL_ne _ _ _ _ (by decide)

@[simp] theorem lk_pool_insert_ft (v : String) (m : Labels) :
    lookupL "pool" (insertL "field_type" v m) = lookupL "pool" m :=
  lookupL_insertL_ne _ _ _ _ (by decide)

@[simp] theorem lk_pool_insert_dt (v : String) (m : Labels) :
    lookupL "pool" (insertL "device_type" v m) = lookupL "pool" m :=
  lookupL_insertL_ne _ _ _ _ (by decide)

@[simp] theorem lk_pool_insert_dn (v : String) (m : Labels) :
    lookupL "pool" (insertL "device_name" v m) = lookupL "pool" m :=
  lookupL_insertL_ne _ _ _ _ (by decide)

@[simp] theorem lk_pool_insert_vdev (v : String) (m : Labels) :
    lookupL "pool" (insertL "vdev" v m) = lookupL "pool" m :=
  lookupL_insertL_ne _ _ _ _ (by decide)

@[simp] theorem lk_pool_insert_pool (v : String) (m : Labels) :
    lookupL "pool" (insertL "pool" v m) = some v := lookupL_insertL_self _ _ _

@[simp] theorem lk_pool_remove_vdev (m : Labels) :
    lookupL "pool" (removeL "vdev" m) = lookupL "pool" m :=
  lookupL_removeL_ne _ _ _ (by decide)

/-- The seven health registries only add `field_type` and `state` labels,
so every other key looks up the same value as in the base label map. -/
theorem register_health_labels_vdev (labels : Labels) (h : Health) :
    ∀ r ∈ register_health labels h, lookupL "vdev" r.labels = lookupL "vdev" labels := by
  intro r hr
  simp only [register_health, List.mem_cons, List.not_mem_nil, or_false] at hr
  rcases hr with h1 | h1 | h1 | h1 | h1 | h1 | h1 <;> subst h1 <;> simp

/-- The seven health registries preserve the `pool` label of the base map. -/
theorem register_health_labels_pool (labels : Labels) (h : Health) :
    ∀ r ∈ register_health labels h, lookupL "pool" r.labels = lookupL "pool" labels := by
  intro r hr
  simp only [register_health, List.mem_cons, List.not_mem_nil, or_false] at hr
  rcases hr with h1 | h1 | h1 | h1 | h1 | h1 | h1 <;> subst h1 <;> simp

/-- C2 (confirmed): `register_health` expands a resolved health value into
exactly seven `health` counters, carrying the state labels `online`,
`degraded`, `faulted`, `offline`, `available`, `unavailable`, `removed`
in order and a shared `field_type=enum` label; every counter is 0 or 1,
exactly one of the seven is 1, and the one that is 1 is exactly the one
whose `state` label matches the given health variant. -/
theorem register_health_one_hot (labels : Labels) (h : Health) :
    (register_health labels h).length = 7 ∧
    (register_health labels h).map (fun r => lookupL "state" r.labels) =
      [some "online", some "degraded", some "faulted", some "offline",
       some "available", some "unavailable", some "removed"] ∧
    (∀ r ∈ register_health labels h, lookupL "field_type" r.labels = some "enum") ∧
    (∀ r ∈ register_health labels h,
      r.counters = [("health", 0)] ∨ r.counters = [("health", 1)]) ∧
    ((register_health labels h).filter (fun r => r.counters == [("health", 1)])).length = 1 ∧
    (∀ r ∈ register_health labels h,
      (r.counters = [("health", 1)] ↔ lookupL "state" r.labels = some (stateName h))) := by
  refine ⟨by simp [register_health], ?_, ?_, ?_, ?_, ?_⟩
  · cases h <;> simp [register_health]
  · intro r hr
    simp only [register_health, List.mem_cons, List.not_mem_nil, or_false] at hr
    rcases hr with h1 | h1 | h1 | h1 | h1 | h1 | h1 <;> subst h1 <;> simp
  · intro r hr
    simp only [register_health, List.mem_cons, List.not_mem_nil, or_false] at hr
    cases h <;>
      rcases hr with h1 | h1 | h1 | h1 | h1 | h1 | h1 <;> subst h1 <;> simp
  · cases h <;> simp [register_health]
  · intro r hr
    simp only [register_health, List.mem_cons, List.not_mem_nil, or_false] at hr
    cases h <;>
      rcases hr with h1 | h1 | h1 | h1 | h1 | h1 | h1 <;> subst h1 <;> simp [stateName]

/-- Witness for C2: the one-hot expansion evaluated for a degraded device
with an empty base label map. -/
theorem register_health_one_hot_witness :
    (register_health [] Health.degraded).length = 7 ∧
    (∀ r ∈ register_health [] Health.degraded,
      (r.counters = [("health", 1)] ↔ lookupL "state" r.labels = some "degraded")) := by
  have h := register_health_one_hot [] Health.degraded
  exact ⟨h.1, h.2.2.2.2.2⟩

/-- C5 (confirmed): in every successfully parsed row, a parsed allocated
value of exactly 0 makes the record disk-level (both `capacity` and
`available` absent), and any non-zero allocated value makes it
pool/vdev-level with `capacity` the allocated field and `available` the
free field. -/
theorem row_classification_by_alloc (n f1 f2 f3 f4 f5 f6 : String) (d : Device)
    (h : parseRow [n, f1, f2, f3, f4, f5, f6] = Except.ok d) :
    (parseU64 f1 = some 0 → d.io_stats.capacity = none ∧ d.io_stats.available = none) ∧
    (∀ v, parseU64 f1 = some v → v ≠ 0 →
      d.io_stats.capacity = some v ∧ d.io_stats.available = parseU64 f2) := by
  simp only [parseRow] at h
  split at h
  · rename_i alloc free read_op write_op read_band write_band ha hf hr hw hrb hwb
    injection h with h
    subst h
    constructor
    · intro h0
      rw [ha] at h0
      injection h0 with h0
      subst h0
      simp
    · intro v hv hne
      rw [ha] at hv
      injection hv with hv
      subst hv
      simp [hne, hf]
  · exact absurd h (by simp)

/-- Witness for C5: a disk row with allocated 0 parses with both capacity
and available absent. -/
theorem row_classification_by_alloc_witness :
    (⟨"sda", ⟨none, none, 5, 2, 500, 200⟩⟩ : Device).io_stats.capacity = none ∧
    (⟨"sda", ⟨none, none, 5, 2, 500, 200⟩⟩ : Device).io_stats.available = none :=
  (row_classification_by_alloc "sda" "0" "0" "5" "2" "500" "200"
    ⟨"sda", ⟨none, none, 5, 2, 500, 200⟩⟩ rfl).1 rfl

/-- C9 (confirmed): parsing is deterministic — two parses of the same
input text yield the same devices, with identical names, capacities,
availabilities, and all four I/O counters. -/
theorem parse_deterministic (s : String) (ds1 ds2 : List Device)
    (h1 : Device.parse_from_stdout s = Except.ok ds1)
    (h2 : Device.parse_from_stdout s = Except.ok ds2) :
    ds1 = ds2 ∧
    ds1.map Device.name = ds2.map Device.name ∧
    ds1.map (fun d => d.io_stats.capacity) = ds2.map (fun d => d.io_stats.capacity) ∧
    ds1.map (fun d => d.io_stats.available) = ds2.map (fun d => d.io_stats.available) ∧
    ds1.map (fun d => d.io_stats.read_op) = ds2.map (fun d => d.io_stats.read_op) ∧
    ds1.map (fun d => d.io_stats.write_op) = ds2.map (fun d => d.io_stats.write_op) ∧
    ds1.map (fun d => d.io_stats.read_band) = ds2.map (fun d => d.io_stats.read_band) ∧
    ds1.map (fun d => d.io_stats.write_band) = ds2.map (fun d => d.io_stats.write_band) := by
  have h := h1.symm.trans h2
  injection h with h
  subst h
  exact ⟨rfl, rfl, rfl, rfl, rfl, rfl, rfl, rfl⟩

/-- Witness for C9: two parses of one concrete well-formed row agree. -/
theorem parse_deterministic_witness :
    ([⟨"sda", ⟨none, none, 5, 2, 500, 200⟩⟩] : List Device) =
      [⟨"sda", ⟨none, none, 5, 2, 500, 200⟩⟩] :=
  (parse_deterministic "sda\t0\t0\t5\t2\t500\t200" _ _ rfl rfl).1

/-- Every device a single row parses to has capacity and available either
both present or both absent. -/
theorem parseRow_cap_av (r : List String) (d : Device) (h : parseRow r = Except.ok d) :
    d.io_stats.capacity.isSome = d.io_stats.available.isSome := by
  unfold parseRow at h
  split at h
  · split at h
    · rename_i alloc free read_op write_op read_band write_band ha hf hr hw hrb hwb
      injection h with h
      subst h
      by_cases h0 : alloc = 0
      · simp [h0]
      · simp [h0]
    · exact absurd h (by simp)
  · exact absurd h (by simp)

/-- The pairing invariant lifts through the whole parse loop. -/
theorem parseRows_cap_av (rs : List (List String)) (ds : List Device)
    (h : parseRows rs = Except.ok ds) :
    ∀ d ∈ ds, d.io_stats.capacity.isSome = d.io_stats.available.isSome := by
  induction rs generalizing ds with
  | nil =>
    simp only [parseRows] at h
    injection h with h
    subst h
    simp
  | cons r rest ih =>
    simp only [parseRows] at h
    split at h
    · exact absurd h (by simp)
    · rename_i d0 hd0
      split at h
      · exact absurd h (by simp)
      · rename_i ds0 hds0
        injection h with h
        subst h
        intro d hd
        rcases List.mem_cons.mp hd with h1 | h1
        · subst h1
          exact parseRow_cap_av r _ hd0
        · exact ih ds0 hds0 d h1

/-- C8 (confirmed): in every record parsing produces, capacity and
available are both present or both absent; and `collect_metrics` emits
the capacity and available counters exactly when both are present, while
the four I/O counters are emitted for every record. -/
theorem capacity_available_paired (stdout : String) (devices : List Device) (s : IoStats)
    (h : Device.parse_from_stdout stdout = Except.ok devices) :
    (∀ d ∈ devices, d.io_stats.capacity.isSome = d.io_stats.available.isSome) ∧
    (("capacity" ∈ s.collect_metrics.map Prod.fst ↔ s.capacity.isSome ∧ s.available.isSome) ∧
     ("available" ∈ s.collect_metrics.map Prod.fst ↔ s.capacity.isSome ∧ s.available.isSome) ∧
     "read_operations" ∈ s.collect_metrics.map Prod.fst ∧
     "write_operations" ∈ s.collect_metrics.map Prod.fst ∧
     "read_bandwidth" ∈ s.collect_metrics.map Prod.fst ∧
     "write_bandwidth" ∈ s.collect_metrics.map Prod.fst) := by
  constructor
  · exact parseRows_cap_av _ _ h
  · cases hc : s.capacity <;> cases ha : s.available <;>
      simp [IoStats.collect_metrics, hc, ha]

/-- Witness for C8: the I/O counters are emitted for a record with absent
capacity, and the parse of a concrete pool row keeps the pairing. -/
theorem capacity_available_paired_witness :
    "read_operations" ∈ (⟨none, none, 1, 2, 3, 4⟩ : IoStats).collect_metrics.map Prod.fst :=
  (capacity_available_paired "tank\t1000\t4000\t10\t5\t1000\t500"
    [⟨"tank", ⟨some 1000, some 4000, 10, 5, 1000, 500⟩⟩]
    ⟨none, none, 1, 2, 3, 4⟩ rfl).2.2.2.1

/-! ## Substring matching lemmas for the disk correlation -/

theorem listStartsWith_iff (p : List Char) : ∀ s : List Char,
    (listStartsWith s p = true ↔ ∃ t, s = p ++ t) := by
  induction p with
  | nil =>
    intro s
    simp [listStartsWith]
  | cons b bs ih =>
    intro s
    cases s with
    | nil => simp [listStartsWith]
    | cons a as =>
      simp only [listStartsWith, Bool.and_eq_true, beq_iff_eq, ih as, List.cons_append,
        List.cons.injEq]
      constructor
      · rintro ⟨hab, t, ht⟩
        exact ⟨t, hab, ht⟩
      · rintro ⟨t, hab, ht⟩
        exact ⟨hab, t, ht⟩

theorem hasSubstr_iff (p : List Char) : ∀ s : List Char,
    (hasSubstr s p = true ↔ ∃ l t, s = l ++ p ++ t) := by
  intro s
  induction s with
  | nil =>
    cases p with
    | nil =>
      simp only [hasSubstr, List.isEmpty_nil, List.append_nil, true_iff]
      exact ⟨[], [], rfl⟩
    | cons c cs =>
      simp only [hasSubstr, List.isEmpty_cons]
      constructor
      · intro h; cases h
      · rintro ⟨l, t, he⟩
        exact absurd he.symm (by simp)
  | cons a as ih =>
    simp only [hasSubstr, Bool.or_eq_true, listStartsWith_iff, ih]
    constructor
    · rintro (⟨t, ht⟩ | ⟨l, t, ht⟩)
      · exact ⟨[], t, by simpa using ht⟩
      · exact ⟨a :: l, t, by simp [ht]⟩
    · rintro ⟨l, t, ht⟩
      cases l with
      | nil =>
        exact Or.inl ⟨t, by simpa using ht⟩
      | cons x xs =>
        simp only [List.cons_append, List.cons.injEq] at ht
        exact Or.inr ⟨xs, t, ht.2⟩

/-- The `find?` of the disk search returns the first disk of the list
satisfying the predicate. -/
theorem find?_first_split {α : Type} (p : α → Bool) (l : List α) (a : α)
    (h : l.find? p = some a) :
    p a = true ∧ ∃ l1 l2, l = l1 ++ a :: l2 ∧ ∀ b ∈ l1, p b = false := by
  induction l with
  | nil => cases h
  | cons x xs ih =>
    by_cases hx : p x = true
    · rw [List.find?_cons_of_pos _ hx] at h
      injection h with h
      subst h
      exact ⟨hx, [], xs, rfl, by simp⟩
    · have hx2 : p x = false := by simpa using hx
      rw [List.find?_cons_of_neg _ hx] at h
      obtain ⟨hp, l1, l2, he, hall⟩ := ih h
      refine ⟨hp, x :: l1, l2, by simp [he], ?_⟩
      intro b hb
      rcases List.mem_cons.mp hb with h1 | h1
      · subst h1; exact hx2
      · exact hall b h1

/-- C6 (confirmed): the disk-correlation search matches a topology disk
to a reconstructed disk entity exactly when the topology disk's path
contains the entity's name as a substring; the search scans all vdevs of
the topology object in order and returns the first matching disk — every
vdev before the returned one has no matching disk, and every disk before
the returned one inside its own vdev does not match either.  The third
part characterises the `contains` model: it holds exactly when the name's
character list occurs contiguously inside the path's character list. -/
theorem disk_match_substring_first (pool_vdevs : List Vdev) (name : String) :
    (matchDisk pool_vdevs name = none ↔
      ∀ v ∈ pool_vdevs, ∀ dk ∈ v.disks, strContains dk.path name = false) ∧
    (∀ v dk, matchDisk pool_vdevs name = some (v, dk) →
      strContains dk.path name = true ∧
      (∃ pre rest, pool_vdevs = pre ++ v :: rest ∧
        ∀ v2 ∈ pre, ∀ dk2 ∈ v2.disks, strContains dk2.path name = false) ∧
      (∃ dpre dpost, v.disks = dpre ++ dk :: dpost ∧
        ∀ dk2 ∈ dpre, strContains dk2.path name = false)) ∧
    (∀ s pat : String, strContains s pat = true ↔
      ∃ l t : List Char, s.data = l ++ pat.data ++ t) := by
  refine ⟨?_, ?_, ?_⟩
  · induction pool_vdevs with
    | nil => simp [matchDisk]
    | cons v0 rest ih =>
      simp only [matchDisk]
      cases hf : v0.disks.find? (fun d => strContains d.path name) with
      | some d =>
        simp only [List.mem_cons]
        constructor
        · intro h; cases h
        · intro h
          have hd := List.find?_some hf
          have := h v0 (Or.inl rfl) d (List.mem_of_find?_eq_some hf)
          rw [this] at hd
          cases hd
      | none =>
        rw [ih]
        constructor
        · intro h v hv dk hdk
          rcases List.mem_cons.mp hv with h1 | h1
          · subst h1
            have := List.find?_eq_none.mp hf dk hdk
            simpa using this
          · exact h v h1 dk hdk
        · intro h v hv dk hdk
          exact h v (List.mem_cons_of_mem _ hv) dk hdk
  · induction pool_vdevs with
    | nil => intro v dk h; cases h
    | cons v0 rest ih =>
      intro v dk h
      simp only [matchDisk] at h
      cases hf : v0.disks.find? (fun d => strContains d.path name) with
      | some d =>
        rw [hf] at h
        injection h with h
        have hv : v0 = v := congrArg Prod.fst h
        have hd : d = dk := congrArg Prod.snd h
        subst hv
        subst hd
        obtain ⟨hp, l1, l2, he, hall⟩ := find?_first_split _ _ _ hf
        exact ⟨hp, ⟨[], rest, rfl, by simp⟩, ⟨l1, l2, he, hall⟩⟩
      | none =>
        rw [hf] at h
        obtain ⟨hc, ⟨pre, rest2, hpr, hprf⟩, hdks⟩ := ih v dk h
        refine ⟨hc, ⟨v0 :: pre, rest2, by simp [hpr], ?_⟩, hdks⟩
        intro v2 hv2 dk2 hdk2
        rcases List.mem_cons.mp hv2 with h1 | h1
        · subst h1
          have := List.find?_eq_none.mp hf dk2 hdk2
          simpa using this
        · exact hprf v2 h1 dk2 hdk2
  · intro s pat
    exact hasSubstr_iff pat.data s.data

/-- Witness for C6: with one topology vdev holding a disk at path
`/dev/sda1`, the search for entity name `sda` returns that disk, whose
path indeed contains the name. -/
theorem disk_match_substring_first_witness :
    strContains "/dev/sda1" "sda" = true :=
  ((disk_match_substring_first
      [⟨[⟨"/dev/sda1", Health.online, ⟨0, 0, 0⟩⟩], ⟨0, 0, 0⟩⟩] "sda").2.1
    ⟨[⟨"/dev/sda1", Health.online, ⟨0, 0, 0⟩⟩], ⟨0, 0, 0⟩⟩
    ⟨"/dev/sda1", Health.online, ⟨0, 0, 0⟩⟩ rfl).1

/-! ## Split/join lemmas for the row filter -/

theorem splitOnChar_no_sep (c : Char) (l : List Char) (h : c ∉ l) :
    splitOnChar c l = [l] := by
  induction l with
  | nil => rfl
  | cons a rest ih =>
    have ha : (a == c) = false := by
      simp only [beq_eq_false_iff_ne, ne_eq]
      intro e
      exact h (by simp [e])
    have hrest : c ∉ rest := fun hr => h (List.mem_cons_of_mem _ hr)
    simp [splitOnChar, ha, ih hrest]

theorem splitOnChar_append_sep (c : Char) (p t : List Char) (h : c ∉ p) :
    splitOnChar c (p ++ c :: t) = p :: splitOnChar c t := by
  induction p with
  | nil => simp [splitOnChar]
  | cons a rest ih =>
    have ha : (a == c) = false := by
      simp only [beq_eq_false_iff_ne, ne_eq]
      intro e
      exact h (by simp [e])
    have hrest : c ∉ rest := fun hr => h (List.mem_cons_of_mem _ hr)
    simp [splitOnChar, ha, ih hrest]

theorem splitOnChar_joinChar (c : Char) (ps : List (List Char)) (hne : ps ≠ [])
    (h : ∀ p ∈ ps, c ∉ p) :
    splitOnChar c (joinChar c ps) = ps := by
  induction ps with
  | nil => cases hne rfl
  | cons p rest ih =>
    cases rest with
    | nil => simpa [joinChar] using splitOnChar_no_sep c p (h p (by simp))
    | cons q rest2 =>
      have h1 : c ∉ p := h p (by simp)
      have h2 : ∀ x ∈ q :: rest2, c ∉ x := fun x hx => h x (List.mem_cons_of_mem _ hx)
      calc splitOnChar c (joinChar c (p :: q :: rest2))
          = splitOnChar c (p ++ c :: joinChar c (q :: rest2)) := rfl
        _ = p :: splitOnChar c (joinChar c (q :: rest2)) := splitOnChar_append_sep c p _ h1
        _ = p :: (q :: rest2) := by rw [ih (by simp) h2]

theorem map_mk_data (l2 : List String) : (l2.map String.data).map String.mk = l2 := by
  induction l2 with
  | nil => rfl
  | cons x xs ih => simp only [List.map_cons, ih]

theorem rustSplit_joinNL (ls : List String) (hne : ls ≠ [])
    (h : ∀ s ∈ ls, '\n' ∉ s.data) :
    rustSplit '\n' (joinNL ls) = ls := by
  unfold rustSplit joinNL
  rw [show (String.mk (joinChar '\n' (ls.map String.data))).data
        = joinChar '\n' (ls.map String.data) from rfl]
  rw [splitOnChar_joinChar '\n' (ls.map String.data) (by simpa using hne) ?hmem]
  case hmem =>
    intro p hp
    obtain ⟨s, hs, he⟩ := List.mem_map.mp hp
    subst he
    exact h s hs
  exact map_mk_data ls

/-- C7 (confirmed): a line is well-formed exactly when splitting on the
tab character yields exactly 7 fields, none empty (the `wellFormed`
retain predicate); a line failing the check is removed before any numeric
parsing, produces no device, and leaves the parse of the surrounding
well-formed lines untouched — the scrape result with the malformed line
present equals the result with it deleted. -/
theorem malformed_row_dropped (pre post : List String) (bad : String)
    (hbad : wellFormed (rustSplit '\t' bad) = false)
    (hnl : ∀ s ∈ pre ++ bad :: post, '\n' ∉ s.data) :
    Device.parse_from_stdout (joinNL (pre ++ bad :: post)) =
      Device.parse_from_stdout (joinNL (pre ++ post)) := by
  show parseRows (List.filter wellFormed
      (List.map (rustSplit '\t') (rustSplit '\n' (joinNL (pre ++ bad :: post))))) =
    parseRows (List.filter wellFormed
      (List.map (rustSplit '\t') (rustSplit '\n' (joinNL (pre ++ post)))))
  rw [rustSplit_joinNL _ (by simp) hnl]
  by_cases hpp : pre ++ post = []
  · have hp : pre = [] := by
      cases pre with
      | nil => rfl
      | cons x xs => simp at hpp
    have hq : post = [] := by
      rw [hp] at hpp
      simpa using hpp
    subst hp
    subst hq
    simp only [List.nil_append, List.map_cons, List.map_nil, List.filter_cons, hbad,
      Bool.false_eq_true, if_false, List.filter_nil]
    rfl
  · rw [rustSplit_joinNL (pre ++ post) hpp
      (fun s hs => hnl s (by
        rcases List.mem_append.mp hs with h1 | h1
        · exact List.mem_append.mpr (Or.inl h1)
        · exact List.mem_append.mpr (Or.inr (List.mem_cons_of_mem _ h1))))]
    simp [List.filter_append, List.filter_cons, hbad]

/-- Witness for C7: inserting a 2-field line between two well-formed rows
does not change the parse result. -/
theorem malformed_row_dropped_witness :
    Device.parse_from_stdout
        (joinNL ["tank\t9\t8\t7\t6\t5\t4", "oops\tline", "sda\t0\t0\t5\t2\t500\t200"]) =
      Device.parse_from_stdout (joinNL ["tank\t9\t8\t7\t6\t5\t4", "sda\t0\t0\t5\t2\t500\t200"]) :=
  malformed_row_dropped ["tank\t9\t8\t7\t6\t5\t4"] ["sda\t0\t0\t5\t2\t500\t200"] "oops\tline"
    (by decide) (by decide)

/-! ## Reconstruction ordering lemmas -/

set_option maxRecDepth 4096

/-- The loop's `last_vdev` after one step: it becomes the current device
exactly when the row is a non-pool pool/vdev header, and is untouched
otherwise. -/
theorem processDevice_last_vdev (pn : String) (tv : List Vdev) (pl : Labels)
    (st : LoopState) (d : Device) :
    (processDevice pn tv pl st d).last_vdev =
      if !(d.name == pn) && d.is_pool_or_vdev then some d else st.last_vdev := by
  by_cases hn : (d.name == pn) = true
  · simp only [processDevice, hn, if_true, Bool.not_true, Bool.false_and,
      Bool.false_eq_true, if_false]
  · have hn2 : (d.name == pn) = false := by simpa using hn
    by_cases hv : d.is_pool_or_vdev = true
    · simp only [processDevice, hn2, Bool.false_eq_true, if_false, hv, if_true,
        Bool.not_false, Bool.true_and]
    · have hv2 : d.is_pool_or_vdev = false := by simpa using hv
      simp only [processDevice, hn2, Bool.false_eq_true, if_false, hv2, Bool.not_false,
        Bool.true_and]
      cases hm : matchDisk tv d.name with
      | none => rfl
      | some pr =>
        cases pr with
        | mk pv pdk => rfl

/-- The loop's `last_vdev` over a whole device list is the most recent
vdev header. -/
theorem foldl_processDevice_last_vdev (pn : String) (tv : List Vdev) (pl : Labels)
    (devs : List Device) : ∀ st : LoopState,
    (devs.foldl (processDevice pn tv pl) st).last_vdev =
      lastVdevHeader pn st.last_vdev devs := by
  induction devs with
  | nil => intro st; rfl
  | cons d rest ih =>
    intro st
    show (rest.foldl (processDevice pn tv pl) (processDevice pn tv pl st d)).last_vdev =
      lastVdevHeader pn
        (if !(d.name == pn) && d.is_pool_or_vdev then some d else st.last_vdev) rest
    rw [ih, processDevice_last_vdev]

/-- Every registry a disk-row step appends carries a `vdev` label equal to
the name of the currently open vdev, and no `vdev` label when none is
open (given the pool-level start labels carry none). -/
theorem processDevice_disk_regs (pn : String) (tv : List Vdev) (pl : Labels)
    (st : LoopState) (d : Device) (hpl : lookupL "vdev" pl = none)
    (hn : (d.name == pn) = false) (hd : d.is_pool_or_vdev = false) :
    ∀ r ∈ (processDevice pn tv pl st d).registries.drop st.registries.length,
      lookupL "vdev" r.labels = Option.map Device.name st.last_vdev := by
  intro r hr
  cases hm : matchDisk tv d.name with
  | none =>
    cases hlv : st.last_vdev with
    | none =>
      simp only [processDevice, hn, Bool.false_eq_true, if_false, hd, hm, hlv,
        List.drop_left, List.mem_singleton] at hr
      subst hr
      simp [hpl, hlv]
    | some vdev =>
      simp only [processDevice, hn, Bool.false_eq_true, if_false, hd, hm, hlv,
        List.drop_left, List.mem_singleton] at hr
      subst hr
      simp [hlv]
  | some pr =>
    cases pr with
    | mk pv pdk =>
      cases hlv : st.last_vdev with
      | none =>
        simp only [processDevice, hn, Bool.false_eq_true, if_false, hd, hm, hlv,
          List.append_assoc, List.drop_left, List.mem_append, List.mem_singleton] at hr
        rcases hr with h1 | h1
        · rw [register_health_labels_vdev _ _ r h1]
          simp [hpl, hlv]
        · subst h1
          simp [hpl, hlv]
      | some vdev =>
        simp only [processDevice, hn, Bool.false_eq_true, if_false, hd, hm, hlv,
          List.append_assoc, List.drop_left, List.mem_append, List.mem_singleton] at hr
        rcases hr with h1 | h1
        · rw [register_health_labels_vdev _ _ r h1]
          simp [hlv]
        · subst h1
          simp [hlv]

/-- C4 (confirmed): in a device sequence, a disk-level row (not the pool
row, capacity absent) processed after a prefix `pre` is attached — in
every registry the step appends for it — with a `vdev` label naming the
most recently preceding vdev header of `pre`, and never a later one; when
no vdev header precedes it, the `vdev` label is absent; and a row whose
name equals the pool's name leaves the loop state (in particular the
current vdev) unchanged. -/
theorem disk_attaches_to_preceding_vdev (pn : String) (tv : List Vdev) (pl : Labels)
    (pre : List Device) (d : Device) (hpl : lookupL "vdev" pl = none)
    (hn : (d.name == pn) = false) (hd : d.is_pool_or_vdev = false) :
    (∀ r ∈ (processDevice pn tv pl (pre.foldl (processDevice pn tv pl) ⟨none, none, []⟩)
          d).registries.drop
        (pre.foldl (processDevice pn tv pl) ⟨none, none, []⟩).registries.length,
      lookupL "vdev" r.labels = Option.map Device.name (lastVdevHeader pn none pre)) ∧
    (∀ (st : LoopState) (dp : Device), (dp.name == pn) = true →
      processDevice pn tv pl st dp = st) := by
  constructor
  · intro r hr
    rw [processDevice_disk_regs pn tv pl _ d hpl hn hd r hr]
    rw [foldl_processDevice_last_vdev]
  · intro st dp hdp
    simp [processDevice, hdp]

/-- Witness for C4: with the spec's example sequence, the registry the
disk row `sda` pushes after the header `mirror-0` carries
`vdev = mirror-0`. -/
theorem disk_attaches_to_preceding_vdev_witness :
    lookupL "vdev" (Reg.mk
      (insertL "vdev" "mirror-0" (insertL "device_type" "disk"
        (insertL "device_name" "sda" (pool_labels "tank"))))
      ((⟨none, none, 5, 2, 500, 200⟩ : IoStats).collect_metrics)).labels =
      some "mirror-0" := by
  have h := (disk_attaches_to_preceding_vdev "tank" [] (pool_labels "tank")
    [⟨"mirror-0", ⟨some 1000, some 4000, 10, 5, 1000, 500⟩⟩]
    ⟨"sda", ⟨none, none, 5, 2, 500, 200⟩⟩ (by decide) (by decide) (by decide)).1
  exact (h (Reg.mk
      (insertL "vdev" "mirror-0" (insertL "device_type" "disk"
        (insertL "device_name" "sda" (pool_labels "tank"))))
      ((⟨none, none, 5, 2, 500, 200⟩ : IoStats).collect_metrics))
    (by decide)).trans (by decide)

/-! ## Label-set invariants of the emitted registries -/

/-- One loop step preserves the invariant that every pushed registry's
label set carries the pool label of the start labels. -/
theorem processDevice_pool_label (pn : String) (tv : List Vdev) (pl : Labels) (n : String)
    (hpl : lookupL "pool" pl = some n) (st : LoopState) (d : Device)
    (hst : ∀ r ∈ st.registries, lookupL "pool" r.labels = some n) :
    ∀ r ∈ (processDevice pn tv pl st d).registries, lookupL "pool" r.labels = some n := by
  intro r hr
  by_cases hn : (d.name == pn) = true
  · simp only [processDevice, hn, if_true] at hr
    exact hst r hr
  · have hn2 : (d.name == pn) = false := by simpa using hn
    by_cases hv : d.is_pool_or_vdev = true
    · cases hld : st.last_vdev_data with
      | none =>
        simp only [processDevice, hn2, Bool.false_eq_true, if_false, hv, if_true, hld,
          List.append_nil] at hr
        exact hst r hr
      | some vdev =>
        simp only [processDevice, hn2, Bool.false_eq_true, if_false, hv, if_true, hld,
          List.mem_append, List.mem_singleton] at hr
        rcases hr with h1 | h1
        · exact hst r h1
        · subst h1
          simp [register_vdev_stats, hpl]
    · have hv2 : d.is_pool_or_vdev = false := by simpa using hv
      cases hm : matchDisk tv d.name with
      | none =>
        cases hlv : st.last_vdev with
        | none =>
          simp only [processDevice, hn2, Bool.false_eq_true, if_false, hv2, hm, hlv,
            List.mem_append, List.mem_singleton] at hr
          rcases hr with h1 | h1
          · exact hst r h1
          · subst h1
            simp [hpl]
        | some vdev =>
          simp only [processDevice, hn2, Bool.false_eq_true, if_false, hv2, hm, hlv,
            List.mem_append, List.mem_singleton] at hr
          rcases hr with h1 | h1
          · exact hst r h1
          · subst h1
            simp [hpl]
      | some pr =>
        cases pr with
        | mk pv pdk =>
          cases hlv : st.last_vdev with
          | none =>
            simp only [processDevice, hn2, Bool.false_eq_true, if_false, hv2, hm, hlv,
              List.append_assoc, List.mem_append, List.mem_singleton] at hr
            rcases hr with h1 | h1 | h1
            · exact hst r h1
            · rw [register_health_labels_pool _ _ r h1]
              simp [hpl]
            · subst h1
              simp [hpl]
          | some vdev =>
            simp only [processDevice, hn2, Bool.false_eq_true, if_false, hv2, hm, hlv,
              List.append_assoc, List.mem_append, List.mem_singleton] at hr
            rcases hr with h1 | h1 | h1
            · exact hst r h1
            · rw [register_health_labels_pool _ _ r h1]
              simp [hpl]
            · subst h1
              simp [hpl]

/-- The pool-label invariant over the whole device loop. -/
theorem foldl_processDevice_pool_label (pn : String) (tv : List Vdev) (pl : Labels)
    (n : String) (hpl : lookupL "pool" pl = some n) (devs : List Device) :
    ∀ st : LoopState, (∀ r ∈ st.registries, lookupL "pool" r.labels = some n) →
    ∀ r ∈ (devs.foldl (processDevice pn tv pl) st).registries,
      lookupL "pool" r.labels = some n := by
  induction devs with
  | nil => intro st hst; exact hst
  | cons d rest ih =>
    intro st hst
    exact ih (processDevice pn tv pl st d) (processDevice_pool_label pn tv pl n hpl st d hst)

/-- Every registry the reconstruction loop emits carries the pool label
of the start labels. -/
theorem reconstruct_pool_label (pn : String) (tv : List Vdev) (pl : Labels) (n : String)
    (hpl : lookupL "pool" pl = some n) (devices : List Device) :
    ∀ r ∈ reconstruct pn tv pl devices, lookupL "pool" r.labels = some n := by
  intro r hr
  have hbase := foldl_processDevice_pool_label pn tv pl n hpl devices ⟨none, none, []⟩
    (by simp)
  cases hlv : (devices.foldl (processDevice pn tv pl) ⟨none, none, []⟩).last_vdev with
  | none =>
    simp only [reconstruct, hlv] at hr
    exact hbase r hr
  | some device =>
    cases hld : (devices.foldl (processDevice pn tv pl) ⟨none, none, []⟩).last_vdev_data with
    | none =>
      simp only [reconstruct, hlv, hld] at hr
      exact hbase r hr
    | some vdev =>
      simp only [reconstruct, hlv, hld, List.mem_append, List.mem_singleton] at hr
      rcases hr with h1 | h1
      · exact hbase r h1
      · subst h1
        simp [register_vdev_stats, hpl]

/-- C10 (confirmed): every registry a pool's scrape emits — the pool's
own, every vdev's, every disk's, and all their health registries — has a
`pool` label equal to the pool's name; a vdev registry never carries a
`vdev` label (it is removed from the cloned labels); and the registries a
disk row pushes carry a `vdev` label exactly when a vdev was open at that
row. -/
theorem label_sets_pool_and_vdev (p : PoolInput) (regs : List Reg)
    (h : processPool p = Except.ok regs) :
    (∀ r ∈ regs, lookupL "pool" r.labels = some p.name) ∧
    (∀ (v : Vdev) (dev : Device) (vn : String) (ls : Labels),
      lookupL "vdev" (register_vdev_stats v dev vn ls).labels = none) ∧
    (∀ (tv : List Vdev) (st : LoopState) (d : Device),
      (d.name == p.name) = false → d.is_pool_or_vdev = false →
      ∀ r ∈ (processDevice p.name tv (pool_labels p.name) st d).registries.drop
          st.registries.length,
        (lookupL "vdev" r.labels).isSome = st.last_vdev.isSome) := by
  refine ⟨?_, ?_, ?_⟩
  · simp only [processPool] at h
    split at h
    · exact absurd h (by simp)
    · rename_i devices hdev
      split at h
      · exact absurd h (by simp)
      · rename_i extra hextra
        injection h with h
        subst h
        intro r hr
        rcases List.mem_append.mp hr with h1 | h1
        · rcases List.mem_append.mp h1 with h2 | h2
          · rw [register_health_labels_pool _ _ r h2]
            simp [pool_labels]
          · simp only [List.mem_singleton] at h2
            subst h2
            simp [pool_labels]
        · exact reconstruct_pool_label p.name p.vdevs (pool_labels p.name) p.name
            (by simp [pool_labels]) devices r h1
  · intro v dev vn ls
    simp [register_vdev_stats]
  · intro tv st d hn hd r hr
    rw [processDevice_disk_regs p.name tv (pool_labels p.name) st d
      (by simp [pool_labels, lookupL]) hn hd r hr]
    cases st.last_vdev <;> simp

/-- Witness for C10: applied to a one-row concrete pool; the projected
vdev-label fact evaluated at concrete arguments. -/
theorem label_sets_pool_and_vdev_witness :
    lookupL "vdev" (register_vdev_stats ⟨[], ⟨0, 0, 0⟩⟩
      ⟨"m", ⟨none, none, 0, 0, 0, 0⟩⟩ "m" []).labels = none := by
  have h := label_sets_pool_and_vdev
    ⟨"tank", [], 0, Health.online, ⟨0, 0, 0⟩, "tank\t1\t2\t3\t4\t5\t6", ""⟩ _ rfl
  exact h.2.1 ⟨[], ⟨0, 0, 0⟩⟩ ⟨"m", ⟨none, none, 0, 0, 0, 0⟩⟩ "m" []

/-! ## The vdev finalization defect (C1) and the scrape-wide panic (C3) -/

/-- C1 (code_bug): evaluation of the reconstruction loop at inputs
exhibiting the defect.  First conjunct: with topology error statistics
(1,2,3) on the vdev owning `sda`, and rows `mirror-0`, `sda`, `mirror-1`,
the loop emits exactly one vdev registry — labeled with the NEW header's
name `mirror-1` and carrying `mirror-1`'s io stats together with
`mirror-0`'s topology error statistics and disk count — instead of
finalizing `mirror-0` under its own name and io stats and later emitting
`mirror-1`.  Second conjunct: two vdev headers none of whose disks
matched the topology produce no vdev registry at all, although both
vdevs were open and should have been finalized and emitted. -/
theorem vdev_finalize_failing_eval :
    ((reconstruct "tank" [⟨[⟨"/dev/sda", Health.online, ⟨7, 7, 7⟩⟩], ⟨1, 2, 3⟩⟩]
        (pool_labels "tank")
        [⟨"mirror-0", ⟨some 100, some 200, 1, 2, 3, 4⟩⟩,
         ⟨"sda", ⟨none, none, 5, 6, 7, 8⟩⟩,
         ⟨"mirror-1", ⟨some 300, some 400, 9, 10, 11, 12⟩⟩]).filter
        (fun r => lookupL "device_type" r.labels == some "vdev")).map
      (fun r => (lookupL "device_name" r.labels, r.counters)) =
    [(some "mirror-1",
      [("capacity", 300), ("available", 400), ("read_operations", 9),
       ("write_operations", 10), ("read_bandwidth", 11), ("write_bandwidth", 12),
       ("read_errors", 1), ("write_errors", 2), ("checksum_errors", 3),
       ("disk_count", 1)])] ∧
    reconstruct "tank" [] (pool_labels "tank")
      [⟨"mirror-0", ⟨some 1000, some 4000, 10, 5, 1000, 500⟩⟩,
       ⟨"mirror-1", ⟨some 1, some 2, 3, 4, 5, 6⟩⟩] = [] :=
  ⟨rfl, rfl⟩

/-- Counterexample for C3: a scrape with two pools where the first pool's
iostat output has a non-numeric field in a retained row.  The claim says
the failure is fatal only for that pool and the second pool may still be
processed; the code's `unwrap` panic aborts the whole scrape, so the
result is an error and no registry of the second pool survives. -/
theorem parse_failure_not_isolated_cex :
    run_pools
      [⟨"tank", [], 0, Health.online, ⟨0, 0, 0⟩, "tank\tx\t2\t3\t4\t5\t6", ""⟩,
       ⟨"data", [], 0, Health.online, ⟨0, 0, 0⟩, "data\t10\t20\t1\t2\t3\t4", ""⟩] =
    Except.error "panic: invalid digit" := rfl

/-- C3 (corrected): a numeric parse failure in any pool's rows is a panic
that aborts the entire scrape — whenever some pool's processing errors,
the whole scrape result is an error, so no pool of that scrape produces
output. -/
theorem parse_failure_aborts_scrape (pools : List PoolInput) (p : PoolInput) (e : String)
    (hp : p ∈ pools) (he : processPool p = Except.error e) :
    ∃ e2, run_pools pools = Except.error e2 := by
  induction pools with
  | nil => cases hp
  | cons q rest ih =>
    rcases List.mem_cons.mp hp with h1 | h1
    · subst h1
      exact ⟨e, by simp [run_pools, he]⟩
    · cases hq : processPool q with
      | error e3 => exact ⟨e3, by simp [run_pools, hq]⟩
      | ok regs =>
        obtain ⟨e2, h2⟩ := ih h1
        exact ⟨e2, by simp [run_pools, hq, h2]⟩

/-- Witness for C3's amended theorem: the one-pool scrape with the bad
row errors out. -/
theorem parse_failure_aborts_scrape_witness :
    ∃ e2, run_pools
      [⟨"tank", [], 0, Health.online, ⟨0, 0, 0⟩, "tank\tx\t2\t3\t4\t5\t6", ""⟩] =
      Except.error e2 :=
  parse_failure_aborts_scrape
    [⟨"tank", [], 0, Health.online, ⟨0, 0, 0⟩, "tank\tx\t2\t3\t4\t5\t6", ""⟩]
    ⟨"tank", [], 0, Health.online, ⟨0, 0, 0⟩, "tank\tx\t2\t3\t4\t5\t6", ""⟩
    "panic: invalid digit" (by simp) rfl

end ZfsExporter
